import Mathlib

/-!
Verification of the MetalSoft table-formatter rendering core.

The Go source is shallowly embedded: the dynamically typed cell values
(`interface\x7b\x7d`) become the sum type `CellValue`; Go `string` is Lean
`String` (the contents exercised here are single-byte characters, so Go's
byte-length `len` coincides with Lean's character count); Go `int` is `Int`;
`float64` cell values are modelled as exact decimals `mant / 10 ^ scale`
(the concrete floats in scope, such as 20.1 at precision 2, involve no binary
rounding); code that can panic (type assertions, out-of-range indexing) or
return an error is embedded in `Option`, where `none` models the panic or
error.
-/

namespace TableFormatter

/-- Column type tag `TypeInt` (Go iota constant 0). -/
def TypeInt : Nat := 0

/-- Column type tag `TypeString` (Go iota constant 1). -/
def TypeString : Nat := 1

/-- Column type tag `TypeFloat` (Go iota constant 2). -/
def TypeFloat : Nat := 2

/-- Column type tag `TypeDateTime` (Go iota constant 3). -/
def TypeDateTime : Nat := 3

/-- Column type tag `TypeInterface` (Go iota constant 4). -/
def TypeInterface : Nat := 4

/-- Column type tag `TypeBool` (Go iota constant 5). -/
def TypeBool : Nat := 5

/-- Go `SchemaField`: a typed column descriptor. -/
structure SchemaField where
  FieldName : String
  FieldType : Nat
  FieldSize : Int
  FieldPrecision : Int
  FieldFormat : String
deriving DecidableEq, Repr

/-- A dynamically typed table cell (Go `interface\x7b\x7d`).  Floats are exact
decimals: `.float m e` stands for the value `m / 10 ^ e`. -/
inductive CellValue where
  | int (n : Int)
  | str (s : String)
  | float (mant : Int) (scale : Nat)
  | bool (b : Bool)
deriving DecidableEq, Repr

/-- A table row: one cell per column, index-aligned with the schema. -/
abbrev Row := List CellValue

/-- Go `Table`: data matrix plus schema. -/
structure Table where
  Data : List Row
  Schema : List SchemaField
deriving DecidableEq, Repr

/-- Go global `DefaultTimeFormat`. -/
def DefaultTimeFormat : String := "2006-01-02T15:04:05Z"

/-- Go global `DefaultFoldAtLength`. -/
def DefaultFoldAtLength : Int := 300

/-- Go global `DefaultDelimiter`. -/
def DefaultDelimiter : String := "|"

/-- Go `emptyString`: a string of `n` spaces. -/
def emptyString (n : Nat) : String :=
  String.mk (List.replicate n ' ')

/-- Character class `[0-9;]` of the color-stripping regular expression. -/
def isColorParam (c : Char) : Bool :=
  c.isDigit || c == ';'

/-- Length of the match of the regular expression `ESC \[ [0-9;]* [mG]` at the
head of `l`, if it matches there. -/
def matchColorLen (l : List Char) : Option Nat :=
  match l with
  | c1 :: c2 :: rest =>
    if c1 = '\x1b' ∧ c2 = '[' then
      match rest.dropWhile isColorParam with
      | t :: _ =>
        if t = 'm' ∨ t = 'G' then some (3 + (rest.takeWhile isColorParam).length)
        else none
      | [] => none
    else none
  | _ => none

/-- Fueled scanner for `decolorize`: removes every (leftmost, non-overlapping)
match of `ESC \[ [0-9;]* [mG]`, exactly as `regexp.ReplaceAllLiteralString`
does.  Each step consumes at least one character, so fuel equal to the length
of the list suffices. -/
def decolorizeFuel : Nat → List Char → List Char
  | 0, l => l
  | _ + 1, [] => []
  | fuel + 1, c :: rest =>
    match matchColorLen (c :: rest) with
    | some k => decolorizeFuel fuel (List.drop k (c :: rest))
    | none => c :: decolorizeFuel fuel rest

/-- Go `decolorize`: removes all terminal color/control sequences. -/
def decolorize (s : String) : String :=
  String.mk (decolorizeFuel s.data.length s.data)

/-- Go `pad`: appends spaces to `s` until its de-colorized length reaches
`desired`; returns `s` unchanged when it is already wide enough. -/
def pad (s : String) (desired : Int) : String :=
  let current : Int := (decolorize s).length
  if desired - current ≤ 0 then s
  else s ++ emptyString (desired - current).toNat

/-- Go `strings.ReplaceAll(s, "%", "%%")` used by the string branch of
`getTableRow`: every percent character is doubled. -/
def escapePercents (s : String) : String :=
  String.mk (s.data.foldr (fun c acc => if c = '%' then '%' :: '%' :: acc else c :: acc) [])

/-- Go `strings.Split(s, "\n")` at the character level. -/
def splitNl (l : List Char) : List (List Char) :=
  l.foldr
    (fun c acc =>
      if c = '\n' then [] :: acc
      else
        match acc with
        | h :: t => (c :: h) :: t
        | [] => [[c]])
    [[]]

/-- Go `strings.Split(s, "\n")` on strings. -/
def goSplitLines (s : String) : List String :=
  (splitNl s.data).map String.mk

/-- The padding `fmt.Sprintf` performs for a left-justified verb of width `w`
(flag `-`): append spaces until the argument has at least `w` characters. -/
def leftJustify (s : String) (w : Nat) : String :=
  if s.length < w then s ++ emptyString (w - s.length) else s

/-- Effective `fmt` width produced by interpolating `FieldSize` into a format
string such as `" %%-%dd"`.  A negative size `-n` yields the format text
`%--nd`, whose duplicated `-` flag is still left-justification with width `n`,
hence `natAbs`. -/
def goWidth (w : Int) : Nat :=
  w.natAbs

/-- Round `n / d` to the nearest integer, ties to even (the rounding of Go's
fixed-point float formatting). -/
def roundHalfEvenNat (n d : Nat) : Nat :=
  let q := n / d
  let r := n % d
  if d < 2 * r then q + 1
  else if 2 * r < d then q
  else if q % 2 = 1 then q + 1 else q

/-- Digit string of `n` with a decimal point placed `p` digits from the right
(no point when `p = 0`), zero-padded so the integer part is nonempty. -/
def fixedDigits (n p : Nat) : String :=
  let ds := (toString n).data
  let ds := List.replicate (p + 1 - ds.length) '0' ++ ds
  if p = 0 then String.mk ds
  else String.mk (ds.take (ds.length - p) ++ '.' :: ds.drop (ds.length - p))

/-- Go `fmt.Sprintf("%.Pf", v)` on the exact decimal `mant / 10 ^ scale`:
fixed-point notation with `prec` fractional digits.  A negative precision
makes the interpolated format verb invalid, modelled as `none`. -/
def goFixed (mant : Int) (scale : Nat) (prec : Int) : Option String :=
  if prec < 0 then none
  else
    let p := prec.toNat
    let n := mant.natAbs
    let n' := if scale ≤ p then n * 10 ^ (p - scale) else roundHalfEvenNat n (10 ^ (scale - p))
    some ((if mant < 0 then "-" else "") ++ fixedDigits n' p)

/-- Go `fmt.Sprintf("%v", d)` for the cell values in scope.  The shortest-form
float rendering of `%v` is not modelled (`none`); float cells are always in
`TypeFloat` columns in the claims. -/
def goV (v : CellValue) : Option String :=
  match v with
  | .int n => some (toString n)
  | .str s => some s
  | .float _ _ => none
  | .bool b => some (if b then "true" else "false")

/-- Go `fmt.Sprintf("%+v", d)`: like `%v` but numbers carry an explicit
sign. -/
def goPlusV (v : CellValue) : Option String :=
  match v with
  | .int n => some ((if 0 ≤ n then "+" else "") ++ toString n)
  | .str s => some s
  | .float _ _ => none
  | .bool b => some (if b then "true" else "false")

/-- Go `getCellSize`: renders the cell per its column type, strips colors,
splits on line breaks and returns the widest line.  `none` models the type
assertion panic on a cell/column type mismatch. -/
def getCellSize (d : CellValue) (f : SchemaField) : Option Nat := do
  let s ←
    if f.FieldType = TypeInt then
      match d with
      | .int n => some (toString n)
      | _ => none
    else if f.FieldType = TypeString then
      match d with
      | .str s => some (decolorize s)
      | _ => none
    else if f.FieldType = TypeFloat then
      match d with
      | .float m e => goFixed m e f.FieldPrecision
      | _ => none
    else
      (goV d).map decolorize
  pure ((splitNl s.data).foldl (fun m w => if m < w.length then w.length else m) 0)

/-- One cell of Go `getTableRow`'s first loop: the formatted sub-lines of the
cell (more than one only for a string cell with embedded line breaks). -/
def formatCell (v : CellValue) (f : SchemaField) : Option (List String) :=
  if f.FieldType = TypeInt then
    match v with
    | .int n => some [" " ++ leftJustify (toString n) (goWidth f.FieldSize)]
    | _ => none
  else if f.FieldType = TypeString then
    match v with
    | .str s => some ((goSplitLines (escapePercents s)).map (fun r => " " ++ pad r f.FieldSize))
    | _ => none
  else if f.FieldType = TypeFloat then
    match v with
    | .float m e => (goFixed m e f.FieldPrecision).map (fun fs => [" " ++ leftJustify fs (goWidth f.FieldSize)])
    | _ => none
  else
    (goPlusV v).map (fun s => [" " ++ leftJustify s (goWidth f.FieldSize)])

/-- Go `getTableRow`'s first loop over the schema, accessing `row[i]` for the
running index `i` (out-of-range access panics, hence `none`). -/
def formatCellsAux (row : Row) : Nat → List SchemaField → Option (List (List String))
  | _, [] => some []
  | i, f :: rest => do
    let v ← row.get? i
    let c ← formatCell v f
    let cs ← formatCellsAux row (i + 1) rest
    pure (c :: cs)

/-- The row height Go accumulates while formatting: the maximum sub-line count
over the cells, starting from 1 (only multi-line string cells can raise it;
all other cells are singletons). -/
def rowHeightOf (cells : List (List String)) : Nat :=
  cells.foldl (fun h c => if h < c.length then c.length else h) 1

/-- The per-cell width Go computes before vertical padding.  Note the source's
comparison uses the raw length `len(s)` while the assignment stores the
de-colorized length — this mismatch is reproduced verbatim. -/
def cellMaxWidth (cell : List String) : Nat :=
  cell.foldl (fun m s => if m < s.length then (decolorize s).length else m) 0

/-- Go `getTableRow`'s second loop for one cell: left-justify every sub-line
to the cell's computed width, then fill up to the row height with blank lines
of that width. -/
def padCell (h : Nat) (cell : List String) : List String :=
  let m := cellMaxWidth cell
  cell.map (fun s => leftJustify s m) ++ List.replicate (h - cell.length) (emptyString m)

/-- Go `strings.Join(elems, sep)`. -/
def goJoin (sep : String) : List String → String
  | [] => ""
  | [x] => x
  | x :: xs => x ++ sep ++ goJoin sep xs

/-- The physical output lines of Go `getTableRow`: line `y` is the
concatenation over the cells of the delimiter followed by sub-line `y`,
closed by a trailing delimiter. -/
def getTableRowLines (row : Row) (schema : List SchemaField) : Option (List String) := do
  let cells ← formatCellsAux row 0 schema
  let h := rowHeightOf cells
  let padded := cells.map (padCell h)
  pure ((List.range h).map
    (fun y => (padded.map (fun c => DefaultDelimiter ++ c.getD y "")).foldl (· ++ ·) "" ++ DefaultDelimiter))

/-- Go `getTableRow`: the physical lines joined by line breaks. -/
def getTableRow (row : Row) (schema : List SchemaField) : Option String :=
  (getTableRowLines row schema).map (goJoin "\n")

/-- Go `getTableHeader`: renders the column names as a string row against a
schema coerced to `TypeString` cells of the declared widths (the other fields
of the altered schema are Go zero values). -/
def getTableHeader (schema : List SchemaField) : Option String :=
  getTableRow (schema.map (fun f => CellValue.str f.FieldName))
    (schema.map (fun f =>
      { FieldName := "", FieldType := TypeString, FieldSize := f.FieldSize,
        FieldPrecision := 0, FieldFormat := "" }))

/-- Go `getTableDelimiter`: `+` then, per column, `FieldSize + 1` dashes and a
`+` (a non-positive count yields no dashes, as the Go loop does). -/
def getTableDelimiter (schema : List SchemaField) : String :=
  schema.foldl (fun row f => row ++ String.mk (List.replicate (f.FieldSize + 1).toNat '-') ++ "+") "+"

/-- Go `getTableAsString`: delimiter, header, delimiter, one (possibly
multi-line) row string per data row, delimiter, joined by line breaks with a
trailing line break. -/
def getTableAsString (data : List Row) (schema : List SchemaField) : Option String := do
  let header ← getTableHeader schema
  let body ← data.mapM (fun r => getTableRow r schema)
  pure (goJoin "\n" ([getTableDelimiter schema, header, getTableDelimiter schema] ++ body
    ++ [getTableDelimiter schema]) ++ "\n")

/-- The loop body of Go `AdjustFieldSizes` over one column: the running
maximum of `acc` and the measured widths of the column's cells, top to
bottom (Go indexes `t.Data[k][i]`; `none` models the panic on a short row or
a type mismatch). -/
def columnMax (data : List Row) (i : Nat) (f : SchemaField) (acc : Int) : Option Int :=
  match data with
  | [] => some acc
  | row :: rest => do
    let c ← row.get? i
    let sz ← getCellSize c f
    columnMax rest i f (if acc < (sz : Int) then (sz : Int) else acc)

/-- The measured cell widths of column `i`, top to bottom (specification
companion of `columnMax`). -/
def columnSizes (data : List Row) (i : Nat) (f : SchemaField) : Option (List Nat) :=
  match data with
  | [] => some []
  | row :: rest => do
    let c ← row.get? i
    let sz ← getCellSize c f
    let l ← columnSizes rest i f
    pure (sz :: l)

/-- One column of Go `Table.AdjustFieldSizes`: seed the maximum with the
declared size and the header-name length, scan the column, and grow the
declared size to `max + 1` whenever the scan exceeded it. -/
def adjustField (data : List Row) (i : Nat) (f : SchemaField) : Option SchemaField := do
  let init : Int := if f.FieldSize < (f.FieldName.length : Int) then (f.FieldName.length : Int) else f.FieldSize
  let maxLen ← columnMax data i f init
  pure (if f.FieldSize < maxLen then { f with FieldSize := maxLen + 1 } else f)

/-- Go `Table.AdjustFieldSizes` over the whole schema, column by column. -/
def adjustSchemaAux (data : List Row) : Nat → List SchemaField → Option (List SchemaField)
  | _, [] => some []
  | i, f :: rest => do
    let f' ← adjustField data i f
    let rest' ← adjustSchemaAux data (i + 1) rest
    pure (f' :: rest')

/-- Go `Table.AdjustFieldSizes` as a function on the schema (the Go method
mutates the schema in place and leaves the data untouched). -/
def adjustSchema (data : List Row) (schema : List SchemaField) : Option (List SchemaField) :=
  adjustSchemaAux data 0 schema

/-- Go `Table.AdjustFieldSizes` at the `Table` level. -/
def Table.AdjustFieldSizes (t : Table) : Option Table :=
  (adjustSchema t.Data t.Schema).map (fun s => { Data := t.Data, Schema := s })

/-- Go `getRowSize`: sums the measured widths of the FIRST row's cells over
the schema's columns.  The read of `data[0]` happens inside the loop, so an
empty schema returns 0 even for an empty table, while a nonempty schema with
no rows panics (`none`). -/
def getRowSizeAux (data : List Row) : Nat → List SchemaField → Option Nat
  | _, [] => some 0
  | i, f :: rest => do
    let row ← data.get? 0
    let c ← row.get? i
    let sz ← getCellSize c f
    let rest' ← getRowSizeAux data (i + 1) rest
    pure (sz + rest')

/-- Go `getRowSize`. -/
def getRowSize (data : List Row) (schema : List SchemaField) : Option Nat :=
  getRowSizeAux data 0 schema

/-- Go `strings.ToLower`. -/
def goToLower (s : String) : String :=
  String.mk (s.data.map Char.toLower)

/-- Modelled from the spec: lower-camel-casing of column names, standing in
for the external `strcase.ToLowerCamel` call of `getTableAsYAMLString`
(delimiters `_`, `-` and space are removed and the following letter is
uppercased; the first letter is lowercased). -/
def toLowerCamel (s : String) : String :=
  let step := fun (st : List Char × Bool × Bool) (c : Char) =>
    if c = '_' ∨ c = '-' ∨ c = ' ' then (st.1, true, st.2.2)
    else if st.2.2 then (c.toLower :: st.1, false, false)
    else if st.2.1 then (c.toUpper :: st.1, false, false)
    else (c :: st.1, false, false)
  String.mk ((s.data.foldl step ([], false, true)).1.reverse)

/-- The field-name/value pairs Go builds for one row before YAML
marshalling, keys lower-camel-cased from the lowered column names. -/
def rowYamlEntriesAux (row : Row) : Nat → List SchemaField → Option (List (String × CellValue))
  | _, [] => some []
  | i, f :: rest => do
    let v ← row.get? i
    let es ← rowYamlEntriesAux row (i + 1) rest
    pure ((toLowerCamel (goToLower f.FieldName), v) :: es)

/-- Insertion into an association list with replacement — the Go code stores
the pairs in a `map`, so a later duplicate key overwrites the earlier one. -/
def mapInsert (m : List (String × CellValue)) (kv : String × CellValue) : List (String × CellValue) :=
  match m with
  | [] => [kv]
  | e :: es => if e.1 = kv.1 then kv :: es else e :: mapInsert es kv

/-- Key-ordered insertion used to model the deterministic key order of the
external YAML marshaller. -/
def insertSorted (kv : String × CellValue) : List (String × CellValue) → List (String × CellValue)
  | [] => [kv]
  | e :: es => if kv.1 < e.1 then kv :: e :: es else e :: insertSorted kv es

/-- Modelled from the spec: the record-oriented serialization of one row map
by the external `yaml.Marshal` — one `- key: value` block per record with the
remaining keys indented, keys in a deterministic (here lexicographic) order.
Plain scalars are emitted bare when purely alphabetic, otherwise quoted with
the usual escapes; floats are not modelled. -/
def yamlScalar (v : CellValue) : Option String :=
  match v with
  | .int n => some (toString n)
  | .bool b => some (if b then "true" else "false")
  | .float _ _ => none
  | .str s =>
    if s ≠ "" ∧ s.data.all (fun c => c.isAlpha) then some s
    else some ("\"" ++ String.mk (s.data.foldr
      (fun c acc =>
        if c = '"' then '\\' :: '"' :: acc
        else if c = '\\' then '\\' :: '\\' :: acc
        else if c = '\n' then '\\' :: 'n' :: acc
        else c :: acc) []) ++ "\"")

/-- One YAML record from its sorted entry list. -/
def yamlRecord (entries : List (String × CellValue)) : Option String :=
  match entries with
  | [] => some "- \x7b\x7d\n"
  | e :: es => do
    let v0 ← yamlScalar e.2
    let rest ← es.mapM (fun kv => (yamlScalar kv.2).map (fun v => "  " ++ kv.1 ++ ": " ++ v ++ "\n"))
    pure ("- " ++ e.1 ++ ": " ++ v0 ++ "\n" ++ goJoin "" rest)

/-- Go `getTableAsYAMLString`: each row becomes a named-field record, the
records are marshalled and the result is de-colorized. -/
def getTableAsYAMLString (data : List Row) (schema : List SchemaField) : Option String := do
  let recs ← data.mapM (fun row => do
    let entries ← rowYamlEntriesAux row 0 schema
    let m := entries.foldl mapInsert []
    yamlRecord (m.foldr insertSorted []))
  pure (decolorize (goJoin "" recs))

/-- The Values column Go creates for a folded table: name `"Values"`, type
`TypeString`, declared width 5. -/
def valuesField : SchemaField :=
  { FieldName := "Values", FieldType := TypeString, FieldSize := 5,
    FieldPrecision := 0, FieldFormat := "" }

/-- The loop of Go `getFoldedTableAsString`: each original row becomes a
one-cell row holding that row's YAML record string. -/
def foldRows (data : List Row) (schema : List SchemaField) : Option (List Row) :=
  match data with
  | [] => some []
  | row :: rest => do
    let cell ← getTableAsYAMLString [row] schema
    let nd ← foldRows rest schema
    pure ([CellValue.str cell] :: nd)

/-- Go `getFoldedTableAsString`: build the one-column Values table, adjust
its width, render it. -/
def getFoldedTableAsString (data : List Row) (schema : List SchemaField) : Option String := do
  let newData ← foldRows data schema
  let schema' ← adjustSchema newData [valuesField]
  getTableAsString newData schema'

/-- Go `RenderTableFoldable`, plain-text branch (`format = ""`) and the
invalid-format error; the `json`/`csv` serializer branches delegate to
external marshallers that are not modelled (`none`), and `yaml` delegates to
`getTableAsYAMLString`.  In the plain branch the schema is width-adjusted in
place, then the first row's width decides folding — the short-circuit of the
Go `&&` is the nesting of the `if` below. -/
def Table.RenderTableFoldable (t : Table) (tableName topLine format : String) (foldAtLength : Int) : Option String :=
  if format = "json" ∨ format = "JSON" then none
  else if format = "csv" ∨ format = "CSV" then none
  else if format = "yaml" ∨ format = "YAML" then getTableAsYAMLString t.Data t.Schema
  else if format = "" then do
    let pre := if topLine ≠ "" then topLine ++ "\n" else ""
    let schema' ← adjustSchema t.Data t.Schema
    let body ←
      if 0 < t.Data.length then do
        let rs ← getRowSize t.Data schema'
        if foldAtLength < (rs : Int) then getFoldedTableAsString t.Data schema'
        else getTableAsString t.Data schema'
      else getTableAsString t.Data schema'
    pure (pre ++ body ++ "Total: " ++ toString t.Data.length ++ " " ++ tableName ++ "\n\n")
  else none

/-- Calendar date-time assembled by the layout parser; Go's zero time is
January 1 of year 1. -/
structure GoTime where
  year : Nat
  month : Nat
  day : Nat
  hour : Nat
  minute : Nat
  second : Nat
deriving DecidableEq, Repr

/-- Go `time.Time.Before` on the parsed fields (all times in scope share the
UTC zone, so chronological order is lexicographic on the fields). -/
def GoTime.before (a b : GoTime) : Bool :=
  if a.year ≠ b.year then a.year < b.year
  else if a.month ≠ b.month then a.month < b.month
  else if a.day ≠ b.day then a.day < b.day
  else if a.hour ≠ b.hour then a.hour < b.hour
  else if a.minute ≠ b.minute then a.minute < b.minute
  else a.second < b.second

/-- Reads exactly `n` decimal digits from the input, returning the value and
the rest (Go's fixed-width numeric layout elements). -/
def takeDigits (n : Nat) (inp : List Char) : Option (Nat × List Char) :=
  let ds := inp.take n
  if ds.length = n ∧ ds.all Char.isDigit then
    some (ds.foldl (fun a c => 10 * a + (c.toNat - '0'.toNat)) 0, inp.drop n)
  else none

/-- Recursive core of the `time.Parse` model: walks the layout, consuming the
numeric elements `2006`, `01`, `02`, `15`, `04`, `05` (the elements of the
default format; any other layout character must match the input literally)
and fails on leftover input. -/
def parseTimeAux : List Char → List Char → GoTime → Option GoTime
  | '2' :: '0' :: '0' :: '6' :: lr, inp, t => do
    let (y, ir) ← takeDigits 4 inp
    parseTimeAux lr ir { t with year := y }
  | '0' :: '1' :: lr, inp, t => do
    let (m, ir) ← takeDigits 2 inp
    parseTimeAux lr ir { t with month := m }
  | '0' :: '2' :: lr, inp, t => do
    let (d, ir) ← takeDigits 2 inp
    parseTimeAux lr ir { t with day := d }
  | '1' :: '5' :: lr, inp, t => do
    let (h, ir) ← takeDigits 2 inp
    parseTimeAux lr ir { t with hour := h }
  | '0' :: '4' :: lr, inp, t => do
    let (m, ir) ← takeDigits 2 inp
    parseTimeAux lr ir { t with minute := m }
  | '0' :: '5' :: lr, inp, t => do
    let (s, ir) ← takeDigits 2 inp
    parseTimeAux lr ir { t with second := s }
  | c :: lr, inp, t =>
    match inp with
    | d :: ir => if d = c then parseTimeAux lr ir t else none
    | [] => none
  | [], inp, t => if inp.isEmpty then some t else none

/-- Number of days of a month, with Go's leap-year rule. -/
def daysInMonth (year month : Nat) : Nat :=
  if month = 2 then
    if (year % 4 = 0 ∧ year % 100 ≠ 0) ∨ year % 400 = 0 then 29 else 28
  else if month = 4 ∨ month = 6 ∨ month = 9 ∨ month = 11 then 30
  else 31

/-- Model of Go `time.Parse` for layouts made of the supported numeric
elements and literals: parse, then enforce the field ranges that
`time.Parse` checks. -/
def goTimeParse (layout input : String) : Option GoTime := do
  let t ← parseTimeAux layout.data input.data
    { year := 1, month := 1, day := 1, hour := 0, minute := 0, second := 0 }
  if 1 ≤ t.month ∧ t.month ≤ 12 ∧ 1 ≤ t.day ∧ t.day ≤ daysInMonth t.year t.month
      ∧ t.hour ≤ 23 ∧ t.minute ≤ 59 ∧ t.second ≤ 59 then
    some t
  else none

/-- The `TypeDateTime` comparator closure built by Go `MultiSorter.OrderBy`:
pick the column's format when nonempty (else the process default), parse both
operands, return `false` ("not less") when either parse fails (the Go code
logs and returns; the sort continues), otherwise compare chronologically. -/
def dateTimeLess (field : SchemaField) (a b : CellValue) : Option Bool :=
  match a, b with
  | .str sa, .str sb =>
    let layout := if field.FieldFormat ≠ "" then field.FieldFormat else DefaultTimeFormat
    match goTimeParse layout sa with
    | none => some false
    | some ta =>
      match goTimeParse layout sb with
      | none => some false
      | some tb => some (ta.before tb)
  | _, _ => none

/-- The per-type comparator dispatch of Go `MultiSorter.OrderBy`.  The Go
`default` branch leaves a nil comparator that panics when the sort later
invokes it, hence `none`; likewise the type assertions inside each closure
panic on a mismatched cell. -/
def orderByLess (field : SchemaField) (a b : CellValue) : Option Bool :=
  if field.FieldType = TypeInt then
    match a, b with
    | .int x, .int y => some (decide (x < y))
    | _, _ => none
  else if field.FieldType = TypeString then
    match a, b with
    | .str x, .str y => some (decide (x < y))
    | _, _ => none
  else if field.FieldType = TypeFloat then
    match a, b with
    | .float mx ex, .float my ey => some (decide (mx * (10 : Int) ^ ey < my * (10 : Int) ^ ex))
    | _, _ => none
  else if field.FieldType = TypeDateTime then dateTimeLess field a b
  else if field.FieldType = TypeBool then
    match a, b with
    | .bool x, .bool y => some (x != y)
    | _, _ => none
  else none

/-- One sort key as `OrderBy` stores it: the resolved schema index and the
(copied) schema field whose type selects the comparator. -/
abbrev SortKey := Nat × SchemaField

/-- Applying one sort key to a pair of rows, as `MultiSorter.Less` does:
compare the cells at the key's index (an out-of-range index panics). -/
def keyLess (k : SortKey) (p q : Row) : Option Bool := do
  let a ← p.get? k.1
  let b ← q.get? k.1
  orderByLess k.2 a b

/-- Go `MultiSorter.Less`: try all keys but the last — the forward predicate
deciding "less", the reversed one "not less" — and fall through to the last
key's forward predicate.  An empty key list indexes an empty slice in Go,
hence `none`. -/
def msLess (ks : List SortKey) (p q : Row) : Option Bool :=
  match ks with
  | [] => none
  | [k] => keyLess k p q
  | k :: k2 :: rest => do
    let fw ← keyLess k p q
    if fw then pure true
    else do
      let rv ← keyLess k q p
      if rv then pure false
      else msLess (k2 :: rest) p q

/-- The claim's reading of the multi-key comparison, written from its words:
keys are evaluated in the given order, the first key whose forward or reverse
predicate fires decides the pair (forward firing yields "less", reverse
firing "not less"), and if all keys are exactly tied the result is the last
key's reversed predicate applied directly to the pair. -/
def claimMsLess (ks : List SortKey) (p q : Row) : Option Bool :=
  match ks with
  | [] => none
  | [k] => do
    let fw ← keyLess k p q
    let rv ← keyLess k q p
    if fw then pure true else if rv then pure false else pure rv
  | k :: k2 :: rest => do
    let fw ← keyLess k p q
    let rv ← keyLess k q p
    if fw then pure true
    else if rv then pure false
    else claimMsLess (k2 :: rest) p q

/-- The inner search of Go `MultiSorter.OrderBy`: the first schema column
carrying the requested name, with its index. -/
def findFieldAux (fn : String) : Nat → List SchemaField → Option SortKey
  | _, [] => none
  | i, f :: rest => if f.FieldName = fn then some (i, f) else findFieldAux fn (i + 1) rest

/-- The key-resolution loop of Go `MultiSorter.OrderBy`: each requested name
is resolved to the first schema column carrying it; an unknown name makes the
whole construction fail (Go logs and returns nil). -/
def orderByKeys (schema : List SchemaField) (fieldNames : List String) : Option (List SortKey) :=
  fieldNames.mapM (fun fn => findFieldAux fn 0 schema)

/-! ### Claim C9: the concrete delimiter line and body row -/

/-- C9: for the schema `[ID : Integer, width 6; LABEL : Text, width 20;
INST. : Float, width 6, precision 2]` and the row `[4, "str", 20.1]`, the
delimiter line is `+-------+---------------------+-------+` (per column a `+`
then `width + 1` dashes, with a final `+`) and the rendered body row is
`| 4     | str                 | 20.10 |`. -/
theorem c9_concrete_render :
    getTableDelimiter [⟨"ID", TypeInt, 6, 0, ""⟩, ⟨"LABEL", TypeString, 20, 0, ""⟩,
        ⟨"INST.", TypeFloat, 6, 2, ""⟩] = "+-------+---------------------+-------+" ∧
    getTableRow [.int 4, .str "str", .float 201 1]
        [⟨"ID", TypeInt, 6, 0, ""⟩, ⟨"LABEL", TypeString, 20, 0, ""⟩,
          ⟨"INST.", TypeFloat, 6, 2, ""⟩] =
      some "| 4     | str                 | 20.10 |" := by
  decide

/-! ### Claim C6: the Boolean comparator fires exactly on difference -/

/-- C6: the Boolean sort comparator returns true exactly when the two
booleans differ; it is symmetric — the pairs (true, false) and (false, true)
produce the same signal — and therefore not antisymmetric. -/
theorem c6_bool_comparator :
    (∀ (f : SchemaField) (a b : Bool), f.FieldType = TypeBool →
        orderByLess f (.bool a) (.bool b) = some (a != b)) ∧
    (∀ (f : SchemaField), f.FieldType = TypeBool →
        orderByLess f (.bool true) (.bool false) = orderByLess f (.bool false) (.bool true)) ∧
    ¬ (∀ (f : SchemaField) (a b : Bool), f.FieldType = TypeBool →
        orderByLess f (.bool a) (.bool b) = some true →
        orderByLess f (.bool b) (.bool a) = some false) := by
  have h1 : ∀ (f : SchemaField) (a b : Bool), f.FieldType = TypeBool →
      orderByLess f (.bool a) (.bool b) = some (a != b) := by
    intro f a b h
    simp [orderByLess, h, TypeInt, TypeString, TypeFloat, TypeDateTime, TypeBool]
  refine ⟨h1, ?_, ?_⟩
  · intro f h
    rw [h1 f true false h, h1 f false true h]
    rfl
  · intro hall
    have := hall ⟨"F", TypeBool, 0, 0, ""⟩ true false rfl (by decide)
    exact absurd this (by decide)

/-! ### Claim C3: raw-length width comparisons break color alignment -/

/-- C3 (failing input): the second row value is the first with color
sequences inserted, yet stripping the colors from the rendered colored row
does not give the rendered plain row — the columns of the two physical lines
desynchronize, because `getTableRow`'s width loop compares the raw length
`len(s)` while storing the de-colorized length, and pads with the raw-length
`%-ds` verb. -/
theorem c3_color_alignment_failing_input :
    decolorize "aaaaaaaa\n\x1b[31mab\x1b[0m" = "aaaaaaaa\nab" ∧
    Option.map decolorize
        (getTableRow [.str "aaaaaaaa\n\x1b[31mab\x1b[0m", .str "x"]
          [⟨"A", TypeString, 5, 0, ""⟩, ⟨"B", TypeString, 5, 0, ""⟩]) ≠
      getTableRow [.str "aaaaaaaa\nab", .str "x"]
        [⟨"A", TypeString, 5, 0, ""⟩, ⟨"B", TypeString, 5, 0, ""⟩] := by
  decide

/-! ### Claim C7: the DateTime comparator's layout choice and degradation -/

/-- C7: the DateTime comparator parses both operands with the column's
format when nonempty (otherwise the process default pattern); a parse
failure on either operand makes it return false ("not less") instead of
aborting, so a malformed operand never sorts before its partner; when both
parses succeed the result is the chronological comparison. -/
theorem c7_datetime_comparator (f : SchemaField) (sa sb : String)
    (hft : f.FieldType = TypeDateTime) :
    (goTimeParse (if f.FieldFormat ≠ "" then f.FieldFormat else DefaultTimeFormat) sa = none →
        orderByLess f (.str sa) (.str sb) = some false) ∧
    (∀ ta, goTimeParse (if f.FieldFormat ≠ "" then f.FieldFormat else DefaultTimeFormat) sa = some ta →
        goTimeParse (if f.FieldFormat ≠ "" then f.FieldFormat else DefaultTimeFormat) sb = none →
        orderByLess f (.str sa) (.str sb) = some false) ∧
    (∀ ta tb, goTimeParse (if f.FieldFormat ≠ "" then f.FieldFormat else DefaultTimeFormat) sa = some ta →
        goTimeParse (if f.FieldFormat ≠ "" then f.FieldFormat else DefaultTimeFormat) sb = some tb →
        orderByLess f (.str sa) (.str sb) = some (ta.before tb)) := by
  have hd : orderByLess f (.str sa) (.str sb) = dateTimeLess f (.str sa) (.str sb) := by
    simp [orderByLess, hft, TypeInt, TypeString, TypeFloat, TypeDateTime]
  have hiff : (if f.FieldFormat ≠ "" then f.FieldFormat else DefaultTimeFormat) =
      (if f.FieldFormat = "" then DefaultTimeFormat else f.FieldFormat) := by
    by_cases hc : f.FieldFormat = "" <;> simp [hc]
  refine ⟨?_, ?_, ?_⟩
  · intro hpa
    rw [hiff] at hpa
    rw [hd]
    simp [dateTimeLess, hpa]
  · intro ta hpa hpb
    rw [hiff] at hpa hpb
    rw [hd]
    simp [dateTimeLess, hpa, hpb]
  · intro ta tb hpa hpb
    rw [hiff] at hpa hpb
    rw [hd]
    simp [dateTimeLess, hpa, hpb]

/-- C7 witness: a malformed left operand against a well-formed right operand
under the default pattern compares as "not less". -/
theorem c7_datetime_comparator_witness :
    orderByLess ⟨"D", TypeDateTime, 0, 0, ""⟩ (.str "garbage") (.str "2020-01-02T03:04:05Z") =
      some false :=
  (c7_datetime_comparator ⟨"D", TypeDateTime, 0, 0, ""⟩ "garbage" "2020-01-02T03:04:05Z" rfl).1
    (by decide)

/-- C6 witness: the comparator at the concrete pair (true, false). -/
theorem c6_bool_comparator_witness :
    orderByLess ⟨"F", TypeBool, 0, 0, ""⟩ (.bool true) (.bool false) = some (true != false) :=
  c6_bool_comparator.1 ⟨"F", TypeBool, 0, 0, ""⟩ true false rfl

/-! ### Claim C2: the multi-key comparison structure -/

/-- C2: on a non-empty key list whose comparators are total on the given
pair, `MultiSorter.Less` computes exactly the claim's reading: keys are
evaluated in order, the first key whose forward or reverse predicate fires
decides the pair (forward yielding "less", reverse "not less"), and when all
keys are exactly tied the result is the last key's reversed predicate applied
directly to the pair. -/
theorem c2_multikey_comparison (ks : List SortKey) (p q : Row) (hne : ks ≠ [])
    (htot : ∀ k ∈ ks, (keyLess k p q).isSome ∧ (keyLess k q p).isSome) :
    msLess ks p q = claimMsLess ks p q := by
  induction ks with
  | nil => exact absurd rfl hne
  | cons k rest ih =>
    obtain ⟨h1, h2⟩ := htot k (by simp)
    obtain ⟨fw, hfw⟩ := Option.isSome_iff_exists.mp h1
    obtain ⟨rv, hrv⟩ := Option.isSome_iff_exists.mp h2
    cases rest with
    | nil =>
      simp only [msLess, claimMsLess, hfw, hrv, Option.bind_some, Option.some_bind]
      cases fw <;> cases rv <;> rfl
    | cons k2 rest2 =>
      simp only [msLess, claimMsLess, hfw, hrv, Option.bind_some, Option.some_bind]
      cases fw with
      | true => rfl
      | false =>
        cases rv with
        | true => rfl
        | false =>
          exact ih (by simp) (fun k' hk' => htot k' (List.mem_cons_of_mem k hk'))

/-- C2 witness: two integer keys where the first is tied and the second
decides. -/
theorem c2_multikey_comparison_witness :
    msLess [(0, ⟨"A", TypeInt, 0, 0, ""⟩), (1, ⟨"B", TypeInt, 0, 0, ""⟩)]
        [.int 1, .int 2] [.int 1, .int 5] =
      claimMsLess [(0, ⟨"A", TypeInt, 0, 0, ""⟩), (1, ⟨"B", TypeInt, 0, 0, ""⟩)]
        [.int 1, .int 2] [.int 1, .int 5] :=
  c2_multikey_comparison [(0, ⟨"A", TypeInt, 0, 0, ""⟩), (1, ⟨"B", TypeInt, 0, 0, ""⟩)]
    [.int 1, .int 2] [.int 1, .int 5] (by decide) (by decide)

/-! ### Width adjustment: shared lemmas for C8 and C4 -/

/-- The running maximum of an integer seed over a list of measured widths
(the loop shape of `AdjustFieldSizes`). -/
def foldMaxInt (a : Int) (l : List Nat) : Int :=
  l.foldl (fun (x : Int) (s : Nat) => max x (s : Int)) a

/-- Resizing a schema field, the one mutation `AdjustFieldSizes` performs. -/
def setFieldSize (f : SchemaField) (w : Int) : SchemaField :=
  { f with FieldSize := w }

/-- The running-maximum step of the Go loops is the lattice maximum. -/
theorem ite_max_int (a s : Int) : (if a < s then s else a) = max a s := by
  split <;> omega

/-- `columnMax` is the fold of the maximum over the measured column sizes. -/
theorem columnMax_eq (data : List Row) (i : Nat) (f : SchemaField) (acc : Int) :
    columnMax data i f acc = (columnSizes data i f).map (foldMaxInt acc) := by
  induction data generalizing acc with
  | nil => rfl
  | cons row rest ih =>
    simp only [columnMax, columnSizes]
    cases hrg : row.get? i with
    | none => rfl
    | some c =>
      simp only [Option.bind_eq_bind, Option.some_bind]
      cases hcs : getCellSize c f with
      | none => rfl
      | some sz =>
        simp only [Option.bind_eq_bind, Option.some_bind]
        rw [ih]
        cases hcr : columnSizes rest i f with
        | none => rfl
        | some l =>
          simp only [Option.map_some', Option.bind_eq_bind, Option.some_bind]
          rw [ite_max_int]
          rfl

/-- The seed is a lower bound of the maximum fold. -/
theorem foldMaxInt_le_self : ∀ (l : List Nat) (a : Int), a ≤ foldMaxInt a l := by
  intro l
  induction l with
  | nil => intro a; exact le_refl a
  | cons e l ih =>
    intro a
    exact le_trans (le_max_left a (e : Int)) (ih (max a (e : Int)))

/-- Every element is a lower bound of the maximum fold. -/
theorem foldMaxInt_mem_le : ∀ (l : List Nat) (x : Nat), x ∈ l → ∀ a : Int, (x : Int) ≤ foldMaxInt a l := by
  intro l
  induction l with
  | nil => intro x hx; cases hx
  | cons e l ih =>
    intro x hx a
    rcases List.mem_cons.mp hx with he | hm
    · subst he
      exact le_trans (le_max_right a (x : Int)) (foldMaxInt_le_self l (max a (x : Int)))
    · exact ih x hm (max a (e : Int))

/-- The maximum fold respects a common upper bound. -/
theorem foldMaxInt_le_bound : ∀ (l : List Nat) (a b : Int), (∀ x ∈ l, (x : Int) ≤ b) → a ≤ b →
    foldMaxInt a l ≤ b := by
  intro l
  induction l with
  | nil => intro a b _ hab; exact hab
  | cons e l ih =>
    intro a b hb hab
    exact ih (max a (e : Int)) b (fun x hx => hb x (List.mem_cons_of_mem e hx))
      (max_le hab (hb e (List.mem_cons_self e l)))

/-- Peeling one operand out of the seed of the maximum fold. -/
theorem foldMaxInt_start : ∀ (l : List Nat) (a b : Int),
    foldMaxInt (max a b) l = max a (foldMaxInt b l) := by
  intro l
  induction l with
  | nil => intro a b; rfl
  | cons e l ih =>
    intro a b
    simp only [foldMaxInt, List.foldl_cons] at *
    rw [max_assoc, ih]

/-- Unpacking a successful `adjustField` into the fold form. -/
theorem adjustField_unfold (data : List Row) (i : Nat) (f f' : SchemaField)
    (hadj : adjustField data i f = some f') :
    ∃ sizes, columnSizes data i f = some sizes ∧
      f' = (if f.FieldSize < foldMaxInt (max f.FieldSize (f.FieldName.length : Int)) sizes
            then setFieldSize f (foldMaxInt (max f.FieldSize (f.FieldName.length : Int)) sizes + 1)
            else f) := by
  simp only [adjustField] at hadj
  rw [columnMax_eq] at hadj
  cases hsz : columnSizes data i f with
  | none => rw [hsz] at hadj; cases hadj
  | some sizes =>
    rw [hsz] at hadj
    simp only [Option.map_some', Option.bind_eq_bind, Option.some_bind, Option.pure_def,
      Option.some.injEq] at hadj
    refine ⟨sizes, rfl, ?_⟩
    rw [ite_max_int] at hadj
    exact hadj.symm

/-- The measured cell size never reads the declared field size. -/
theorem getCellSize_fieldSize (c : CellValue) (f : SchemaField) (x : Int) :
    getCellSize c (setFieldSize f x) = getCellSize c f := by
  cases f
  rfl

/-- Column measurement is invariant under resizing the column. -/
theorem columnSizes_fieldSize (data : List Row) (i : Nat) (f : SchemaField) (x : Int) :
    columnSizes data i (setFieldSize f x) = columnSizes data i f := by
  induction data with
  | nil => rfl
  | cons row rest ih =>
    simp only [columnSizes]
    cases row.get? i with
    | none => rfl
    | some c =>
      simp only [Option.bind_eq_bind, Option.some_bind]
      rw [getCellSize_fieldSize, ih]

/-! ### Claim C8: widths never shrink and grow to the maximum plus one -/

/-- C8: `AdjustFieldSizes` never decreases a column's declared width; the
width stays unchanged when it is at least the maximum `N` of the header-name
length and every cell's measured width in the column, and otherwise becomes
`N + 1` — widths only ever grow. -/
theorem c8_width_monotone (data : List Row) (i : Nat) (f f' : SchemaField) (sizes : List Nat)
    (hadj : adjustField data i f = some f') (hsz : columnSizes data i f = some sizes) :
    f.FieldSize ≤ f'.FieldSize ∧
    (foldMaxInt (f.FieldName.length : Int) sizes ≤ f.FieldSize → f' = f) ∧
    (f.FieldSize < foldMaxInt (f.FieldName.length : Int) sizes →
      f' = setFieldSize f (foldMaxInt (f.FieldName.length : Int) sizes + 1)) := by
  obtain ⟨sizes2, hsz2, hform⟩ := adjustField_unfold data i f f' hadj
  rw [hsz] at hsz2
  cases hsz2
  rw [foldMaxInt_start] at hform
  refine ⟨?_, ?_, ?_⟩
  · rw [hform]
    split
    · simp only [setFieldSize]
      omega
    · exact le_refl _
  · intro hle
    rw [hform, if_neg (by omega)]
  · intro hlt
    rw [hform, if_pos (by omega)]
    unfold setFieldSize
    congr 1
    omega

/-- C8 witness: a Text column of declared width 1 named "N" over the single
cell "abc" grows to width 4 = max(1, 3) + 1. -/
theorem c8_width_monotone_witness :
    (⟨"N", TypeString, 1, 0, ""⟩ : SchemaField).FieldSize ≤
        (⟨"N", TypeString, 4, 0, ""⟩ : SchemaField).FieldSize ∧
    (foldMaxInt ((("N" : String).length : Int)) [3] ≤
        (⟨"N", TypeString, 1, 0, ""⟩ : SchemaField).FieldSize →
      (⟨"N", TypeString, 4, 0, ""⟩ : SchemaField) = ⟨"N", TypeString, 1, 0, ""⟩) ∧
    ((⟨"N", TypeString, 1, 0, ""⟩ : SchemaField).FieldSize <
        foldMaxInt ((("N" : String).length : Int)) [3] →
      (⟨"N", TypeString, 4, 0, ""⟩ : SchemaField) =
        setFieldSize ⟨"N", TypeString, 1, 0, ""⟩ (foldMaxInt ((("N" : String).length : Int)) [3] + 1)) :=
  c8_width_monotone [[.str "abc"]] 0 ⟨"N", TypeString, 1, 0, ""⟩ ⟨"N", TypeString, 4, 0, ""⟩ [3]
    (by decide) (by decide)

/-! ### Claim C4: width adjustment is idempotent -/

/-- A second `adjustField` pass over an already-adjusted column is the
identity. -/
theorem adjustField_idem (data : List Row) (i : Nat) (f f' : SchemaField)
    (hadj : adjustField data i f = some f') :
    adjustField data i f' = some f' := by
  obtain ⟨sizes, hsz, hform⟩ := adjustField_unfold data i f f' hadj
  by_cases hlt : f.FieldSize < foldMaxInt (max f.FieldSize (f.FieldName.length : Int)) sizes
  · rw [if_pos hlt] at hform
    have hname : (f.FieldName.length : Int) ≤
        foldMaxInt (max f.FieldSize (f.FieldName.length : Int)) sizes :=
      le_trans (le_max_right _ _) (foldMaxInt_le_self sizes _)
    have hmem : ∀ x ∈ sizes, (x : Int) ≤
        foldMaxInt (max f.FieldSize (f.FieldName.length : Int)) sizes :=
      fun x hx => foldMaxInt_mem_le sizes x hx _
    subst hform
    simp only [adjustField]
    rw [columnMax_eq, columnSizes_fieldSize, hsz]
    simp only [Option.map_some', Option.bind_eq_bind, Option.some_bind, Option.pure_def,
      Option.some.injEq, setFieldSize]
    rw [ite_max_int]
    have hmax : max (foldMaxInt (max f.FieldSize (f.FieldName.length : Int)) sizes + 1)
        ((f.FieldName.length : Int)) =
        foldMaxInt (max f.FieldSize (f.FieldName.length : Int)) sizes + 1 := by
      omega
    rw [hmax]
    have hfold : foldMaxInt (foldMaxInt (max f.FieldSize (f.FieldName.length : Int)) sizes + 1) sizes =
        foldMaxInt (max f.FieldSize (f.FieldName.length : Int)) sizes + 1 :=
      le_antisymm
        (foldMaxInt_le_bound sizes _ _ (fun x hx => le_trans (hmem x hx) (by omega)) (le_refl _))
        (foldMaxInt_le_self sizes _)
    rw [hfold, if_neg (by omega)]
  · rw [if_neg hlt] at hform
    subst hform
    exact hadj

/-- A second schema-wide pass is the identity, column by column. -/
theorem adjustSchemaAux_idem (data : List Row) :
    ∀ (schema schema' : List SchemaField) (i : Nat),
      adjustSchemaAux data i schema = some schema' →
      adjustSchemaAux data i schema' = some schema' := by
  intro schema
  induction schema with
  | nil =>
    intro schema' i h
    simp only [adjustSchemaAux, Option.some.injEq] at h
    subst h
    rfl
  | cons f rest ih =>
    intro schema' i h
    simp only [adjustSchemaAux] at h
    cases hf : adjustField data i f with
    | none => rw [hf] at h; cases h
    | some f' =>
      rw [hf] at h
      simp only [Option.bind_eq_bind, Option.some_bind] at h
      cases hr : adjustSchemaAux data (i + 1) rest with
      | none => rw [hr] at h; cases h
      | some rest' =>
        rw [hr] at h
        simp only [Option.bind_eq_bind, Option.some_bind, Option.pure_def, Option.some.injEq] at h
        subst h
        simp only [adjustSchemaAux]
        rw [adjustField_idem data i f f' hf]
        simp only [Option.bind_eq_bind, Option.some_bind]
        rw [ih rest' (i + 1) hr]
        rfl

/-- C4: `AdjustFieldSizes` is idempotent — a second invocation on the
already-adjusted table with unchanged data leaves exactly the same field
sizes. -/
theorem c4_adjust_idempotent (t t' : Table) (h : t.AdjustFieldSizes = some t') :
    t'.AdjustFieldSizes = some t' := by
  unfold Table.AdjustFieldSizes at h ⊢
  cases hs : adjustSchema t.Data t.Schema with
  | none => rw [hs] at h; cases h
  | some s' =>
    rw [hs] at h
    simp only [Option.map_some', Option.some.injEq] at h
    subst h
    simp only
    unfold adjustSchema at hs ⊢
    rw [adjustSchemaAux_idem t.Data t.Schema s' 0 hs]
    rfl

/-- C4 witness: adjusting the one-column table over the cell "hello" a second
time is a no-op. -/
theorem c4_adjust_idempotent_witness :
    Table.AdjustFieldSizes ⟨[[.str "hello"]], [⟨"A", TypeString, 6, 0, ""⟩]⟩ =
      some ⟨[[.str "hello"]], [⟨"A", TypeString, 6, 0, ""⟩]⟩ :=
  c4_adjust_idempotent ⟨[[.str "hello"]], [⟨"A", TypeString, 2, 0, ""⟩]⟩
    ⟨[[.str "hello"]], [⟨"A", TypeString, 6, 0, ""⟩]⟩ (by decide)

/-! ### Rendering success lemmas shared by C10 and C1 -/

/-- The string branch of `formatCell` on a Text column. -/
theorem formatCell_str (s : String) (f : SchemaField) (hf : f.FieldType = TypeString) :
    formatCell (.str s) f =
      some ((goSplitLines (escapePercents s)).map (fun r => " " ++ pad r f.FieldSize)) := by
  simp [formatCell, hf, TypeInt, TypeString]

/-- Formatting a row of string cells against Text columns always succeeds. -/
theorem formatCellsAux_str_succeeds : ∀ (fields : List SchemaField) (row : Row) (i : Nat),
    (∀ j, j < fields.length → ∃ s : String, row.get? (i + j) = some (.str s)) →
    (∀ g ∈ fields, g.FieldType = TypeString) →
    ∃ cells, formatCellsAux row i fields = some cells := by
  intro fields
  induction fields with
  | nil =>
    intro row i _ _
    exact ⟨[], rfl⟩
  | cons g rest ih =>
    intro row i hrow ht
    obtain ⟨s, hs⟩ := hrow 0 (Nat.succ_pos rest.length)
    rw [Nat.add_zero] at hs
    obtain ⟨cells, hc⟩ := ih row (i + 1)
      (fun j hj => by
        have hj2 := hrow (j + 1) (Nat.succ_lt_succ hj)
        rwa [show i + (j + 1) = i + 1 + j by omega] at hj2)
      (fun g' hg' => ht g' (List.mem_cons_of_mem g hg'))
    have heq : formatCellsAux row i (g :: rest) =
        some (((goSplitLines (escapePercents s)).map (fun r => " " ++ pad r g.FieldSize)) :: cells) := by
      simp only [formatCellsAux, hs, Option.bind_eq_bind, Option.some_bind]
      rw [formatCell_str s g (ht g (List.mem_cons_self g rest))]
      simp only [Option.some_bind]
      rw [hc]
      rfl
    exact ⟨_, heq⟩

/-- The header row always renders: its cells are string cells against Text
columns. -/
theorem getTableHeader_succeeds (schema : List SchemaField) :
    ∃ h, getTableHeader schema = some h := by
  unfold getTableHeader getTableRow getTableRowLines
  obtain ⟨cells, hc⟩ := formatCellsAux_str_succeeds
    (schema.map (fun f =>
      { FieldName := "", FieldType := TypeString, FieldSize := f.FieldSize,
        FieldPrecision := 0, FieldFormat := "" }))
    (schema.map (fun f => CellValue.str f.FieldName)) 0
    (fun j hj => by
      rw [List.length_map] at hj
      refine ⟨(schema.get ⟨j, hj⟩).FieldName, ?_⟩
      rw [Nat.zero_add, List.get?_map, List.get?_eq_get hj]
      rfl)
    (fun g hg => by
      obtain ⟨f, _, hf⟩ := List.mem_map.mp hg
      rw [← hf])
  rw [hc]
  exact ⟨_, rfl⟩

/-- Adjusting over an empty data matrix always succeeds (only header names
are measured) and preserves the column count. -/
theorem adjustSchemaAux_empty : ∀ (schema : List SchemaField) (i : Nat),
    ∃ schema', adjustSchemaAux ([] : List Row) i schema = some schema' ∧
      schema'.length = schema.length := by
  intro schema
  induction schema with
  | nil =>
    intro i
    exact ⟨[], rfl, rfl⟩
  | cons f rest ih =>
    intro i
    obtain ⟨rest', hr, hlen⟩ := ih (i + 1)
    refine ⟨(if f.FieldSize < (if f.FieldSize < (f.FieldName.length : Int)
        then (f.FieldName.length : Int) else f.FieldSize)
      then setFieldSize f ((if f.FieldSize < (f.FieldName.length : Int)
        then (f.FieldName.length : Int) else f.FieldSize) + 1) else f) :: rest', ?_, ?_⟩
    · simp only [adjustSchemaAux, adjustField, columnMax]
      rw [hr]
      rfl
    · simp [hlen]

/-! ### Claim C10: an empty table renders headers and borders only -/

/-- C10: rendering a zero-row table in the plain-text output kind never takes
the folding branch — the guarded `getRowSize` read of `data[0]`, which would
fail on the empty matrix whenever the schema is nonempty, is not evaluated —
and rendering succeeds with the bordered header-and-borders-only block and a
`Total: 0` footer. -/
theorem c10_empty_table (schema : List SchemaField) (tableName topLine : String) (thr : Int) :
    ∃ schema' header,
      adjustSchema ([] : List Row) schema = some schema' ∧
      getTableHeader schema' = some header ∧
      Table.RenderTableFoldable ⟨[], schema⟩ tableName topLine "" thr =
        some ((if topLine ≠ "" then topLine ++ "\n" else "") ++
          (goJoin "\n" [getTableDelimiter schema', header, getTableDelimiter schema',
            getTableDelimiter schema'] ++ "\n") ++
          "Total: " ++ toString (0 : Nat) ++ " " ++ tableName ++ "\n\n") ∧
      (schema ≠ [] → getRowSize ([] : List Row) schema' = none) := by
  obtain ⟨schema', hadj, hlen⟩ := adjustSchemaAux_empty schema 0
  obtain ⟨header, hheader⟩ := getTableHeader_succeeds schema'
  refine ⟨schema', header, hadj, hheader, ?_, ?_⟩
  · simp only [Table.RenderTableFoldable]
    rw [if_neg (by decide), if_neg (by decide), if_neg (by decide), if_pos trivial]
    rw [show adjustSchema ([] : List Row) schema = some schema' from hadj]
    simp only [Option.bind_eq_bind, Option.some_bind]
    rw [if_neg (by decide)]
    simp only [getTableAsString, hheader, Option.bind_eq_bind, Option.some_bind, List.mapM_nil]
    rfl
  · intro hne
    cases hs : schema' with
    | nil =>
      rw [hs] at hlen
      exact absurd (List.length_eq_zero.mp hlen.symm) hne
    | cons g rest => rfl

/-- C10 witness: the empty one-Text-column table at the default threshold. -/
theorem c10_empty_table_witness :
    ∃ schema' header,
      adjustSchema ([] : List Row) [⟨"A", TypeString, 2, 0, ""⟩] = some schema' ∧
      getTableHeader schema' = some header ∧
      Table.RenderTableFoldable ⟨[], [⟨"A", TypeString, 2, 0, ""⟩]⟩ "things" "" "" 300 =
        some ((if ("" : String) ≠ "" then "" ++ "\n" else "") ++
          (goJoin "\n" [getTableDelimiter schema', header, getTableDelimiter schema',
            getTableDelimiter schema'] ++ "\n") ++
          "Total: " ++ toString (0 : Nat) ++ " " ++ "things" ++ "\n\n") ∧
      ([⟨"A", TypeString, 2, 0, ""⟩] ≠ ([] : List SchemaField) →
        getRowSize ([] : List Row) schema' = none) :=
  c10_empty_table [⟨"A", TypeString, 2, 0, ""⟩] "things" "" 300

/-! ### Claim C1: folding of over-wide tables -/

/-- One serialized record per original row: `foldRows` preserves the row
count and stores, at each index, the YAML serialization of the original row
at that index wrapped as a single Text cell. -/
theorem foldRows_spec : ∀ (data : List Row) (schema : List SchemaField) (nd : List Row),
    foldRows data schema = some nd →
    nd.length = data.length ∧
    ∀ j, j < data.length → ∃ row c, data.get? j = some row ∧
      getTableAsYAMLString [row] schema = some c ∧ nd.get? j = some [CellValue.str c] := by
  intro data
  induction data with
  | nil =>
    intro schema nd h
    simp only [foldRows, Option.some.injEq] at h
    subst h
    exact ⟨rfl, fun j hj => absurd hj (Nat.not_lt_zero j)⟩
  | cons row rest ih =>
    intro schema nd h
    simp only [foldRows] at h
    cases hy : getTableAsYAMLString [row] schema with
    | none => rw [hy] at h; cases h
    | some cell =>
      rw [hy] at h
      simp only [Option.bind_eq_bind, Option.some_bind] at h
      cases hr : foldRows rest schema with
      | none => rw [hr] at h; cases h
      | some nd' =>
        rw [hr] at h
        simp only [Option.some_bind, Option.pure_def, Option.some.injEq] at h
        subst h
        obtain ⟨hlen, hpt⟩ := ih schema nd' hr
        refine ⟨by simp [hlen], fun j hj => ?_⟩
        cases j with
        | zero => exact ⟨row, cell, rfl, hy, rfl⟩
        | succ j' =>
          obtain ⟨row', c', h1, h2, h3⟩ := hpt j' (Nat.lt_of_succ_lt_succ hj)
          exact ⟨row', c', h1, h2, h3⟩

/-- Adjusting the one-column Values schema keeps a single `Values` Text
column and never shrinks its width below 5. -/
theorem adjustSchema_values (nd : List Row) (vs : List SchemaField)
    (h : adjustSchema nd [valuesField] = some vs) :
    ∃ w, vs = [⟨"Values", TypeString, w, 0, ""⟩] ∧ 5 ≤ w := by
  unfold adjustSchema at h
  simp only [adjustSchemaAux] at h
  cases hf : adjustField nd 0 valuesField with
  | none => rw [hf] at h; cases h
  | some f' =>
    rw [hf] at h
    simp only [Option.bind_eq_bind, Option.some_bind, Option.pure_def, Option.some.injEq] at h
    subst h
    obtain ⟨sizes, _, hform⟩ := adjustField_unfold nd 0 valuesField f' hf
    have hup : (5 : Int) ≤ foldMaxInt (max valuesField.FieldSize
        ((valuesField.FieldName.length : Nat) : Int)) sizes :=
      le_trans (by norm_num [valuesField]) (foldMaxInt_le_self sizes _)
    by_cases hlt : valuesField.FieldSize < foldMaxInt (max valuesField.FieldSize
        ((valuesField.FieldName.length : Nat) : Int)) sizes
    · rw [if_pos hlt] at hform
      subst hform
      exact ⟨_, rfl, by omega⟩
    · rw [if_neg hlt] at hform
      subst hform
      exact ⟨5, rfl, le_refl _⟩

/-- C1: on a non-empty plain-text render, when the measured width of the
first row exceeds the fold threshold the output is the bordered rendering of
a one-column table — its only column named `Values`, of type Text with
minimum width 5 — holding exactly one serialized record per original row;
when the threshold is not exceeded the output is the normal bordered layout;
in both branches the footer reports `Total: N` for `N` the original row
count. -/
theorem c1_folding (t : Table) (tableName topLine : String) (thr : Int)
    (schema' : List SchemaField) (rs : Nat)
    (hne : t.Data ≠ [])
    (hadj : adjustSchema t.Data t.Schema = some schema')
    (hrs : getRowSize t.Data schema' = some rs) :
    (thr < (rs : Int) →
      Table.RenderTableFoldable t tableName topLine "" thr =
        (do
          let nd ← foldRows t.Data schema'
          let vs ← adjustSchema nd [valuesField]
          let body ← getTableAsString nd vs
          pure ((if topLine ≠ "" then topLine ++ "\n" else "") ++ body ++
            "Total: " ++ toString t.Data.length ++ " " ++ tableName ++ "\n\n")) ∧
      (∀ nd, foldRows t.Data schema' = some nd →
        nd.length = t.Data.length ∧
        (∀ j, j < t.Data.length → ∃ row c, t.Data.get? j = some row ∧
          getTableAsYAMLString [row] schema' = some c ∧ nd.get? j = some [CellValue.str c]) ∧
        (∀ vs, adjustSchema nd [valuesField] = some vs →
          ∃ w, vs = [⟨"Values", TypeString, w, 0, ""⟩] ∧ 5 ≤ w))) ∧
    (¬ thr < (rs : Int) →
      Table.RenderTableFoldable t tableName topLine "" thr =
        (getTableAsString t.Data schema').map (fun body =>
          (if topLine ≠ "" then topLine ++ "\n" else "") ++ body ++
            "Total: " ++ toString t.Data.length ++ " " ++ tableName ++ "\n\n")) := by
  have hbranch : Table.RenderTableFoldable t tableName topLine "" thr =
      (if thr < (rs : Int) then getFoldedTableAsString t.Data schema'
        else getTableAsString t.Data schema').bind (fun body =>
          some ((if topLine ≠ "" then topLine ++ "\n" else "") ++ body ++
            "Total: " ++ toString t.Data.length ++ " " ++ tableName ++ "\n\n")) := by
    simp only [Table.RenderTableFoldable]
    rw [if_neg (by decide), if_neg (by decide), if_neg (by decide), if_pos trivial]
    rw [hadj]
    simp only [Option.bind_eq_bind, Option.some_bind, Option.pure_def]
    rw [if_pos (List.length_pos.mpr hne), hrs]
    simp only [Option.some_bind]
    by_cases hc : thr < (rs : Int)
    · rw [if_pos hc, if_pos hc]
    · rw [if_neg hc, if_neg hc]
  constructor
  · intro hfold
    constructor
    · rw [hbranch, if_pos hfold]
      simp only [getFoldedTableAsString, Option.bind_eq_bind]
      cases foldRows t.Data schema' with
      | none => rfl
      | some nd =>
        simp only [Option.some_bind]
        cases adjustSchema nd [valuesField] with
        | none => rfl
        | some vs =>
          simp only [Option.some_bind]
          cases getTableAsString nd vs with
          | none => rfl
          | some body => rfl
    · intro nd hnd
      obtain ⟨hlen, hpt⟩ := foldRows_spec t.Data schema' nd hnd
      exact ⟨hlen, hpt, fun vs hvs => adjustSchema_values nd vs hvs⟩
  · intro hnofold
    rw [hbranch, if_neg hnofold]
    cases getTableAsString t.Data schema' with
    | none => rfl
    | some body => rfl

/-- C1 witness: a one-column table whose only cell "hello" measures 5
against a fold threshold of 3, with the adjusted schema and the measured
first-row width supplied concretely. -/
theorem c1_folding_witness :
    ((3 : Int) < ((5 : Nat) : Int) →
      Table.RenderTableFoldable ⟨[[.str "hello"]], [⟨"A", TypeString, 2, 0, ""⟩]⟩ "x" "" "" 3 =
        (do
          let nd ← foldRows [[.str "hello"]] [⟨"A", TypeString, 6, 0, ""⟩]
          let vs ← adjustSchema nd [valuesField]
          let body ← getTableAsString nd vs
          pure ((if ("" : String) ≠ "" then "" ++ "\n" else "") ++ body ++
            "Total: " ++ toString ([[CellValue.str "hello"]] : List Row).length ++ " " ++ "x" ++ "\n\n")) ∧
      (∀ nd, foldRows [[.str "hello"]] [⟨"A", TypeString, 6, 0, ""⟩] = some nd →
        nd.length = ([[CellValue.str "hello"]] : List Row).length ∧
        (∀ j, j < ([[CellValue.str "hello"]] : List Row).length →
          ∃ row c, ([[CellValue.str "hello"]] : List Row).get? j = some row ∧
            getTableAsYAMLString [row] [⟨"A", TypeString, 6, 0, ""⟩] = some c ∧
            nd.get? j = some [CellValue.str c]) ∧
        (∀ vs, adjustSchema nd [valuesField] = some vs →
          ∃ w, vs = [⟨"Values", TypeString, w, 0, ""⟩] ∧ 5 ≤ w))) ∧
    (¬ (3 : Int) < ((5 : Nat) : Int) →
      Table.RenderTableFoldable ⟨[[.str "hello"]], [⟨"A", TypeString, 2, 0, ""⟩]⟩ "x" "" "" 3 =
        (getTableAsString [[.str "hello"]] [⟨"A", TypeString, 6, 0, ""⟩]).map (fun body =>
          (if ("" : String) ≠ "" then "" ++ "\n" else "") ++ body ++
            "Total: " ++ toString ([[CellValue.str "hello"]] : List Row).length ++ " " ++ "x" ++ "\n\n")) :=
  c1_folding ⟨[[.str "hello"]], [⟨"A", TypeString, 2, 0, ""⟩]⟩ "x" "" 3
    [⟨"A", TypeString, 6, 0, ""⟩] 5 (by decide) (by decide) (by decide)

/-! ### Claim C5: supporting lemmas on lengths, newlines and formatting -/

/-- The number of physical lines of a rendered string: newline count plus
one. -/
def physicalLineCount (s : String) : Nat :=
  s.data.count '\n' + 1

/-- Color stripping never lengthens a character list. -/
theorem decolorizeFuel_length_le : ∀ (fuel : Nat) (l : List Char),
    (decolorizeFuel fuel l).length ≤ l.length := by
  intro fuel
  induction fuel with
  | zero => intro l; exact le_refl _
  | succ fuel ih =>
    intro l
    cases l with
    | nil => exact Nat.zero_le _
    | cons c rest =>
      simp only [decolorizeFuel]
      cases matchColorLen (c :: rest) with
      | some k =>
        refine le_trans (ih _) ?_
        rw [List.length_drop]
        omega
      | none =>
        simpa using ih rest

/-- Color stripping never lengthens a string. -/
theorem decolorize_length_le (s : String) : (decolorize s).length ≤ s.length :=
  decolorizeFuel_length_le s.data.length s.data

/-- The color pattern needs an escape character at its head. -/
theorem matchColorLen_none_of_ne (c : Char) (l : List Char) (hc : c ≠ '\x1b') :
    matchColorLen (c :: l) = none := by
  cases l with
  | nil => rfl
  | cons c2 r =>
    simp only [matchColorLen]
    rw [if_neg]
    intro hcc
    exact hc hcc.1

/-- A list without escape characters is untouched by the scanner. -/
theorem decolorizeFuel_id : ∀ (fuel : Nat) (l : List Char),
    (∀ c ∈ l, c ≠ '\x1b') → decolorizeFuel fuel l = l := by
  intro fuel
  induction fuel with
  | zero => intro l _; rfl
  | succ fuel ih =>
    intro l hl
    cases l with
    | nil => rfl
    | cons c rest =>
      simp only [decolorizeFuel]
      rw [matchColorLen_none_of_ne c rest (hl c (List.mem_cons_self c rest))]
      rw [ih rest (fun c' hc' => hl c' (List.mem_cons_of_mem c hc'))]

/-- A string without escape characters is untouched by `decolorize`. -/
theorem decolorize_id (s : String) (h : ∀ c ∈ s.data, c ≠ '\x1b') : decolorize s = s := by
  unfold decolorize
  rw [decolorizeFuel_id s.data.length s.data h]

/-- Appending newline-free strings is newline-free. -/
theorem noNl_append (a b : String) (ha : '\n' ∉ a.data) (hb : '\n' ∉ b.data) :
    '\n' ∉ (a ++ b).data := by
  rw [String.data_append]
  intro h
  rcases List.mem_append.mp h with h1 | h2
  · exact ha h1
  · exact hb h2

/-- Blank filler strings are newline-free. -/
theorem noNl_emptyString (n : Nat) : '\n' ∉ (emptyString n).data := by
  intro h
  have := (List.eq_of_mem_replicate h)
  cases this

/-- `leftJustify` preserves newline-freeness. -/
theorem noNl_leftJustify (s : String) (w : Nat) (hs : '\n' ∉ s.data) :
    '\n' ∉ (leftJustify s w).data := by
  unfold leftJustify
  split
  · exact noNl_append s _ hs (noNl_emptyString _)
  · exact hs

/-- `pad` preserves newline-freeness. -/
theorem noNl_pad (s : String) (w : Int) (hs : '\n' ∉ s.data) : '\n' ∉ (pad s w).data := by
  simp only [pad]
  split
  · exact hs
  · exact noNl_append s _ hs (noNl_emptyString _)

/-- Every sub-line produced by `formatCell` starts with the leading space, so
it is nonempty. -/
theorem formatCell_pieces_ne (v : CellValue) (f : SchemaField) (cell : List String)
    (h : formatCell v f = some cell) : ∀ s ∈ cell, 1 ≤ s.length := by
  have hsp : ∀ x : String, 1 ≤ (" " ++ x).length := by
    intro x
    rw [String.length_append]
    have hone : (" " : String).length = 1 := rfl
    omega
  simp only [formatCell] at h
  split_ifs at h
  · cases v with
    | int n =>
      rw [Option.some.injEq] at h
      intro s hs
      rw [← h] at hs
      rw [List.mem_singleton.mp hs]
      exact hsp _
    | str s0 => cases h
    | float m e => cases h
    | bool b => cases h
  · cases v with
    | str s0 =>
      rw [Option.some.injEq] at h
      intro s hs
      rw [← h] at hs
      obtain ⟨r, _, hr⟩ := List.mem_map.mp hs
      rw [← hr]
      exact hsp _
    | int n => cases h
    | float m e => cases h
    | bool b => cases h
  · cases v with
    | float m e =>
      have h2 : Option.map (fun fs => [" " ++ leftJustify fs (goWidth f.FieldSize)])
          (goFixed m e f.FieldPrecision) = some cell := h
      cases hf : goFixed m e f.FieldPrecision with
      | none => rw [hf] at h2; cases h2
      | some fs =>
        rw [hf] at h2
        simp only [Option.map_some', Option.some.injEq] at h2
        intro s hs
        rw [← h2] at hs
        rw [List.mem_singleton.mp hs]
        exact hsp _
    | int n => cases h
    | str s0 => cases h
    | bool b => cases h
  · cases hv : goPlusV v with
    | none => rw [hv] at h; cases h
    | some gs =>
      rw [hv] at h
      simp only [Option.map_some', Option.some.injEq] at h
      intro s hs
      rw [← h] at hs
      rw [List.mem_singleton.mp hs]
      exact hsp _

/-- Pointwise characterization of the cell-formatting loop: the cell list is
index-aligned with the schema, each entry the formatted cell of the row value
at the schema column's index. -/
theorem formatCellsAux_get : ∀ (fields : List SchemaField) (row : Row) (n : Nat)
    (cells : List (List String)), formatCellsAux row n fields = some cells →
    cells.length = fields.length ∧
    ∀ j f, fields.get? j = some f → ∃ v c, row.get? (n + j) = some v ∧
      formatCell v f = some c ∧ cells.get? j = some c := by
  intro fields
  induction fields with
  | nil =>
    intro row n cells h
    simp only [formatCellsAux, Option.some.injEq] at h
    subst h
    exact ⟨rfl, fun j f hj => by cases j <;> cases hj⟩
  | cons g rest ih =>
    intro row n cells h
    simp only [formatCellsAux] at h
    cases hv : row.get? n with
    | none => rw [hv] at h; cases h
    | some v =>
      rw [hv] at h
      simp only [Option.bind_eq_bind, Option.some_bind] at h
      cases hc : formatCell v g with
      | none => rw [hc] at h; cases h
      | some c =>
        rw [hc] at h
        simp only [Option.some_bind] at h
        cases hr : formatCellsAux row (n + 1) rest with
        | none => rw [hr] at h; cases h
        | some cs =>
          rw [hr] at h
          simp only [Option.some_bind, Option.pure_def, Option.some.injEq] at h
          subst h
          obtain ⟨hlen, hpt⟩ := ih row (n + 1) cs hr
          refine ⟨by simp [hlen], fun j f hj => ?_⟩
          cases j with
          | zero =>
            simp only [List.get?] at hj
            cases hj
            exact ⟨v, c, by rw [Nat.add_zero]; exact hv, hc, rfl⟩
          | succ j' =>
            obtain ⟨v', c', h1, h2, h3⟩ := hpt j' f hj
            exact ⟨v', c', by rwa [show n + (j' + 1) = n + 1 + j' by omega], h2, h3⟩

/-- The seed bounds the row-height fold from below. -/
theorem rowHeightFold_le_self : ∀ (cells : List (List String)) (acc : Nat),
    acc ≤ cells.foldl (fun h c => if h < c.length then c.length else h) acc := by
  intro cells
  induction cells with
  | nil => intro acc; exact le_refl _
  | cons c cs ih =>
    intro acc
    rw [List.foldl_cons]
    refine le_trans ?_ (ih _)
    show acc ≤ if acc < c.length then c.length else acc
    split <;> omega

/-- Every cell's sub-line count bounds the row-height fold from below. -/
theorem rowHeightFold_mem_le : ∀ (cells : List (List String)) (c : List String), c ∈ cells →
    ∀ acc : Nat, c.length ≤ cells.foldl (fun h d => if h < d.length then d.length else h) acc := by
  intro cells
  induction cells with
  | nil => intro c hc; cases hc
  | cons d cs ih =>
    intro c hc acc
    rcases List.mem_cons.mp hc with he | hm
    · subst he
      rw [List.foldl_cons]
      refine le_trans ?_ (rowHeightFold_le_self cs _)
      show c.length ≤ if acc < c.length then c.length else acc
      split <;> omega
    · rw [List.foldl_cons]
      exact ih c hm _

/-- The row-height fold respects a common upper bound. -/
theorem rowHeightFold_le_bound : ∀ (cells : List (List String)) (acc b : Nat),
    (∀ c ∈ cells, c.length ≤ b) → acc ≤ b →
    cells.foldl (fun h c => if h < c.length then c.length else h) acc ≤ b := by
  intro cells
  induction cells with
  | nil => intro acc b _ hab; exact hab
  | cons c cs ih =>
    intro acc b hb hab
    rw [List.foldl_cons]
    refine ih _ b (fun d hd => hb d (List.mem_cons_of_mem c hd)) ?_
    have hcb := hb c (List.mem_cons_self c cs)
    show (if acc < c.length then c.length else acc) ≤ b
    split <;> omega

/-- Padding a single-sub-line cell to height 3: the sub-line itself, then two
blank filler lines of the cell's de-colorized width. -/
theorem padCell_singleton (s : String) (h1 : 1 ≤ s.length) :
    padCell 3 [s] =
      [s, emptyString ((decolorize s).length), emptyString ((decolorize s).length)] := by
  unfold padCell cellMaxWidth
  simp only [List.foldl_cons, List.foldl_nil, List.map_cons, List.map_nil, List.length_cons,
    List.length_nil]
  rw [if_pos (by omega : 0 < s.length)]
  have hj : leftJustify s ((decolorize s).length) = s := by
    unfold leftJustify
    rw [if_neg]
    have := decolorize_length_le s
    omega
  rw [hj]
  rfl

/-- Entries of a padded cell inherit newline-freeness. -/
theorem padCell_noNl (h : Nat) (c : List String) (hc : ∀ s ∈ c, '\n' ∉ s.data) :
    ∀ s ∈ padCell h c, '\n' ∉ s.data := by
  intro s hs
  unfold padCell at hs
  rcases List.mem_append.mp hs with hm | hr
  · obtain ⟨x, hx, hxs⟩ := List.mem_map.mp hm
    rw [← hxs]
    exact noNl_leftJustify x _ (hc x hx)
  · rw [List.eq_of_mem_replicate hr]
    exact noNl_emptyString _

/-- A left fold of appends over newline-free strings is newline-free. -/
theorem noNl_foldl_append : ∀ (l : List String) (init : String), '\n' ∉ init.data →
    (∀ x ∈ l, '\n' ∉ x.data) → '\n' ∉ (l.foldl (· ++ ·) init).data := by
  intro l
  induction l with
  | nil => intro init hi _; exact hi
  | cons x xs ih =>
    intro init hi hl
    exact ih (init ++ x) (noNl_append init x hi (hl x (List.mem_cons_self x xs)))
      (fun y hy => hl y (List.mem_cons_of_mem x hy))

/-- `getD` of a list of newline-free strings is newline-free (the default is
empty). -/
theorem noNl_getD (c : List String) (y : Nat) (hc : ∀ s ∈ c, '\n' ∉ s.data) :
    '\n' ∉ (c.getD y "").data := by
  unfold List.getD
  cases hg : c.get? y with
  | none => intro h; cases h
  | some e => exact hc e (List.get?_mem hg)

/-- Joining newline-free lines puts the line count in the newline count. -/
theorem count_nl_goJoin : ∀ (lines : List String), (∀ l ∈ lines, '\n' ∉ l.data) →
    lines ≠ [] → (goJoin "\n" lines).data.count '\n' = lines.length - 1 := by
  intro lines
  induction lines with
  | nil => intro _ hne; exact absurd rfl hne
  | cons x xs ih =>
    intro hl hne
    cases xs with
    | nil =>
      simp only [goJoin, List.length_cons, List.length_nil]
      exact List.count_eq_zero.mpr (hl x (List.mem_cons_self x []))
    | cons y ys =>
      have hx : '\n' ∉ x.data := hl x (List.mem_cons_self x (y :: ys))
      have hres := ih (fun l hm => hl l (List.mem_cons_of_mem x hm)) (by simp)
      show ((x ++ "\n" ++ goJoin "\n" (y :: ys))).data.count '\n' = (x :: y :: ys).length - 1
      rw [String.data_append, String.data_append, List.count_append, List.count_append]
      rw [List.count_eq_zero.mpr hx, hres]
      have hone : List.count '\n' ("\n" : String).data = 1 := rfl
      rw [hone]
      simp only [List.length_cons]
      omega

/-- C5: a row holding the Text cell `"a\nbb\nccc"` in a column of width at
least 5, all of whose other cells format to a single newline-free sub-line,
renders to exactly 3 physical output lines; every other cell appears on
lines 2 and 3 as blank filler of that cell's own rendered (de-colorized)
width. -/
theorem c5_multiline_row (row : Row) (schema : List SchemaField) (i : Nat) (f : SchemaField)
    (cells : List (List String))
    (hcells : formatCellsAux row 0 schema = some cells)
    (hfi : schema.get? i = some f)
    (hft : f.FieldType = TypeString)
    (hfw : 5 ≤ f.FieldSize)
    (hvi : row.get? i = some (.str "a\nbb\nccc"))
    (hoth : ∀ j, j < cells.length → j ≠ i → ∃ s, cells.get? j = some [s] ∧ '\n' ∉ s.data) :
    rowHeightOf cells = 3 ∧
    (∃ lines, getTableRowLines row schema = some lines ∧ lines.length = 3) ∧
    (∃ out, getTableRow row schema = some out ∧ physicalLineCount out = 3) ∧
    (∀ j, j < cells.length → j ≠ i →
      ∃ s, cells.get? j = some [s] ∧
        (cells.map (padCell (rowHeightOf cells))).get? j =
          some [s, emptyString ((decolorize s).length), emptyString ((decolorize s).length)]) := by
  obtain ⟨hclen, hpt⟩ := formatCellsAux_get schema row 0 cells hcells
  obtain ⟨v, tcell, hv0, htc, hti⟩ := hpt i f hfi
  rw [Nat.zero_add, hvi] at hv0
  cases hv0
  have htarget : formatCell (.str "a\nbb\nccc") f =
      some [" " ++ pad "a" f.FieldSize, " " ++ pad "bb" f.FieldSize,
        " " ++ pad "ccc" f.FieldSize] := by
    rw [formatCell_str _ f hft]
    rfl
  rw [htarget] at htc
  cases htc
  have hi_lt : i < cells.length := (List.get?_eq_some.mp hti).1
  have htarget_noNl : ∀ s ∈ [" " ++ pad "a" f.FieldSize, " " ++ pad "bb" f.FieldSize,
      " " ++ pad "ccc" f.FieldSize], '\n' ∉ s.data := by
    intro s hs
    have hsp : '\n' ∉ (" " : String).data := by decide
    rcases List.mem_cons.mp hs with h1 | hs
    · rw [h1]; exact noNl_append _ _ hsp (noNl_pad _ _ (by decide))
    rcases List.mem_cons.mp hs with h2 | hs
    · rw [h2]; exact noNl_append _ _ hsp (noNl_pad _ _ (by decide))
    rcases List.mem_cons.mp hs with h3 | hs
    · rw [h3]; exact noNl_append _ _ hsp (noNl_pad _ _ (by decide))
    · cases hs
  have hcell_cases : ∀ c ∈ cells, c = [" " ++ pad "a" f.FieldSize, " " ++ pad "bb" f.FieldSize,
      " " ++ pad "ccc" f.FieldSize] ∨ ∃ s, c = [s] ∧ '\n' ∉ s.data ∧ 1 ≤ s.length := by
    intro c hc
    obtain ⟨j, hj⟩ := List.mem_iff_get?.mp hc
    have hjlt : j < cells.length := (List.get?_eq_some.mp hj).1
    by_cases hji : j = i
    · subst hji
      rw [hti] at hj
      exact Or.inl (Option.some.injEq _ _ ▸ hj).symm
    · right
      obtain ⟨s, hs1, hs2⟩ := hoth j hjlt hji
      rw [hs1] at hj
      have hceq : c = [s] := (Option.some.injEq _ _ ▸ hj).symm
      have hjs : j < schema.length := by
        rw [← hclen]
        exact hjlt
      obtain ⟨v', c', hv', hc', hcj⟩ := hpt j (schema.get ⟨j, hjs⟩) (List.get?_eq_get hjs)
      rw [hs1] at hcj
      have hc's : c' = [s] := by
        have := Option.some.injEq [s] c' ▸ hcj
        exact this.symm
      rw [hc's] at hc'
      refine ⟨s, hceq, hs2, ?_⟩
      exact formatCell_pieces_ne v' _ [s] hc' s (List.mem_singleton_self s)
  have hrh : rowHeightOf cells = 3 := by
    unfold rowHeightOf
    apply le_antisymm
    · apply rowHeightFold_le_bound
      · intro c hc
        rcases hcell_cases c hc with h1 | ⟨s, h2, _, _⟩
        · rw [h1]; exact le_refl 3
        · rw [h2]; simp
      · omega
    · have hmem := rowHeightFold_mem_le cells _ (List.get?_mem hti) 1
      simpa using hmem
  have hnf : ∀ c ∈ cells, ∀ s ∈ c, '\n' ∉ s.data := by
    intro c hc
    rcases hcell_cases c hc with h1 | ⟨s, h2, hnl, _⟩
    · rw [h1]; exact htarget_noNl
    · rw [h2]
      intro s' hs'
      rw [List.mem_singleton.mp hs']
      exact hnl
  have hlines : getTableRowLines row schema =
      some ((List.range 3).map (fun y =>
        ((cells.map (padCell 3)).map (fun c => DefaultDelimiter ++ c.getD y "")).foldl
          (· ++ ·) "" ++ DefaultDelimiter)) := by
    simp only [getTableRowLines, hcells, Option.bind_eq_bind, Option.some_bind, hrh,
      Option.pure_def]
  have hlines_nf : ∀ l ∈ (List.range 3).map (fun y =>
      ((cells.map (padCell 3)).map (fun c => DefaultDelimiter ++ c.getD y "")).foldl
        (· ++ ·) "" ++ DefaultDelimiter), '\n' ∉ l.data := by
    intro l hl
    obtain ⟨y, _, hly⟩ := List.mem_map.mp hl
    rw [← hly]
    refine noNl_append _ _ ?_ (by decide)
    refine noNl_foldl_append _ "" (by decide) ?_
    intro x hx
    obtain ⟨c, hcm, hcx⟩ := List.mem_map.mp hx
    obtain ⟨c0, hc0, hcc⟩ := List.mem_map.mp hcm
    rw [← hcx]
    refine noNl_append _ _ (by decide) ?_
    rw [← hcc]
    exact noNl_getD _ y (padCell_noNl 3 c0 (hnf c0 hc0))
  refine ⟨hrh, ⟨_, hlines, by simp⟩, ⟨goJoin "\n" ((List.range 3).map (fun y =>
      ((cells.map (padCell 3)).map (fun c => DefaultDelimiter ++ c.getD y "")).foldl
        (· ++ ·) "" ++ DefaultDelimiter)), ?_, ?_⟩, ?_⟩
  · unfold getTableRow
    rw [hlines]
    rfl
  · unfold physicalLineCount
    rw [count_nl_goJoin _ hlines_nf (by simp)]
    simp
  · intro j hjlt hji
    obtain ⟨s, hs1, hs2⟩ := hoth j hjlt hji
    refine ⟨s, hs1, ?_⟩
    rw [hrh, List.get?_map, hs1]
    simp only [Option.map_some', Option.some.injEq]
    have hmemc : [s] ∈ cells := List.get?_mem hs1
    have hslen : 1 ≤ s.length := by
      rcases hcell_cases [s] hmemc with h1 | ⟨s', h2, _, hlen⟩
      · exact absurd (congrArg List.length h1) (by simp)
      · rw [List.cons.injEq] at h2
        rw [h2.1]
        exact hlen
    exact padCell_singleton s hslen

/-- C5 witness: the two-column row `["a\nbb\nccc", "hi"]` over two Text
columns of width 5. -/
theorem c5_multiline_row_witness :
    rowHeightOf [[" a    ", " bb   ", " ccc  "], [" hi   "]] = 3 ∧
    (∃ lines, getTableRowLines [.str "a\nbb\nccc", .str "hi"]
        [⟨"A", TypeString, 5, 0, ""⟩, ⟨"B", TypeString, 5, 0, ""⟩] = some lines ∧
      lines.length = 3) ∧
    (∃ out, getTableRow [.str "a\nbb\nccc", .str "hi"]
        [⟨"A", TypeString, 5, 0, ""⟩, ⟨"B", TypeString, 5, 0, ""⟩] = some out ∧
      physicalLineCount out = 3) ∧
    (∀ j, j < ([[" a    ", " bb   ", " ccc  "], [" hi   "]] : List (List String)).length →
      j ≠ 0 → ∃ s,
        ([[" a    ", " bb   ", " ccc  "], [" hi   "]] : List (List String)).get? j = some [s] ∧
        (([[" a    ", " bb   ", " ccc  "], [" hi   "]] : List (List String)).map
            (padCell (rowHeightOf [[" a    ", " bb   ", " ccc  "], [" hi   "]]))).get? j =
          some [s, emptyString ((decolorize s).length), emptyString ((decolorize s).length)]) :=
  c5_multiline_row [.str "a\nbb\nccc", .str "hi"]
    [⟨"A", TypeString, 5, 0, ""⟩, ⟨"B", TypeString, 5, 0, ""⟩] 0 ⟨"A", TypeString, 5, 0, ""⟩
    [[" a    ", " bb   ", " ccc  "], [" hi   "]]
    (by decide) (by decide) (by decide) (by decide) (by decide)
    (fun j hjlt hji => by
      match j with
      | 0 => exact absurd rfl hji
      | 1 => exact ⟨" hi   ", by decide, by decide⟩
      | (n + 2) => exact absurd hjlt (by simp))

end TableFormatter
